import Mathlib

/-!
Verification development for the Nightscout MCP server
(`src/nightscout_mcp/server.py`).

The shallow embedding below translates the time-series acquisition and
aggregation core of the server into Lean:

* `Entry` models one JSON entry record (`date` in epoch milliseconds, and
  the optional `sgv` glucose field).  Glucose values are modelled as exact
  rationals; Python floating point arithmetic is idealised as exact
  rational (respectively real) arithmetic, and Python `round(x, 1)` is
  modelled as round-half-to-even on the exact value.
* `filter_valid_sgv` and `calculate_stats` embed the statistics engine.
  The module-level configuration globals `GLUCOSE_LOW` / `GLUCOSE_HIGH`
  (environment driven, defaulting to 70 / 140 mg/dL) are passed as explicit
  parameters; the constants below are their default values.  The
  `*_formatted` dictionary entries of the Python result (display-only
  string duplicates of numeric fields) are omitted from the record.
* `parse_date_to_timestamp` embeds the date-expression parser; the clock
  read (`datetime.now`) is passed in as the explicit `now` parameter, and
  calendar timestamps are computed by the standard Julian-day-number
  conversion (`jdn`), which agrees with Python's `datetime.timestamp` for
  midnight-UTC instants.  Digit matching is restricted to ASCII digits and
  the canonical zero-padded `YYYY-MM` / `YYYY-MM-DD` shapes, the forms the
  spec's grammars describe.  A branch of the Python code that raises an
  exception is modelled as `none`.
* `fetch_entries_in_range` embeds the backward-cursor pagination loop.
  The remote HTTP source is a parameter `src : Int → Int → Nat → List Entry`
  taking the `$gte` bound, the `$lt` cursor and the `count` limit.  The
  embedding additionally reports the number of page requests issued (the
  loop iteration count), which the Python loop performs implicitly.
-/

/-- One Nightscout entry record: `date` is the epoch-millisecond timestamp,
`sgv` the optional glucose value (absent key and JSON `null` both map to
`none`). -/
structure Entry where
  date : Int
  sgv : Option ℚ
deriving DecidableEq

/-- `GLUCOSE_MIN_VALID = 40` mg/dL, the sensor-error floor. -/
def GLUCOSE_MIN_VALID : ℚ := 40

/-- Default of the `GLUCOSE_LOW` configuration global (70 mg/dL). -/
def GLUCOSE_LOW : ℚ := 70

/-- Default of the `GLUCOSE_HIGH` configuration global (140 mg/dL). -/
def GLUCOSE_HIGH : ℚ := 140

/-- The filter condition of `filter_valid_sgv`:
`e.get("sgv") and e["sgv"] >= GLUCOSE_MIN_VALID`.  The first conjunct is
Python truthiness: a missing key or `None` gives `None` (falsy) and the
value `0` is falsy as well. -/
def sgvOk (e : Entry) : Bool :=
  match e.sgv with
  | none => false
  | some v => decide (v ≠ 0) && decide (GLUCOSE_MIN_VALID ≤ v)

/-- `filter_valid_sgv`: extract valid SGV values, filtering out sensor
errors (`[e["sgv"] for e in entries if e.get("sgv") and e["sgv"] >= GLUCOSE_MIN_VALID]`).
For the surviving entries `sgv` is present, so the `getD 0` default is
never used. -/
def filter_valid_sgv (entries : List Entry) : List ℚ :=
  (entries.filter sgvOk).map (fun e => e.sgv.getD 0)

/-- Round-half-to-even to the nearest integer (the tie-breaking behaviour
of Python's `round`). -/
def rndHalfEven (q : ℚ) : ℤ :=
  let f := q.floor
  if q - f < 1/2 then f
  else if 1/2 < q - f then f + 1
  else if f % 2 = 0 then f else f + 1

/-- Python `round(q, 1)` on an exact rational. -/
def round1 (q : ℚ) : ℚ := (rndHalfEven (q * 10) : ℚ) / 10

/-- Round-half-to-even to the nearest integer, on real numbers (used for
the standard-deviation and coefficient-of-variation fields, which involve
a square root). -/
noncomputable def rndHalfEvenR (x : ℝ) : ℤ :=
  if x - ⌊x⌋ < 1/2 then ⌊x⌋
  else if 1/2 < x - ⌊x⌋ then ⌊x⌋ + 1
  else if ⌊x⌋ % 2 = 0 then ⌊x⌋ else ⌊x⌋ + 1

/-- Python `round(x, 1)` on a real number. -/
noncomputable def round1R (x : ℝ) : ℝ := (rndHalfEvenR (x * 10) : ℝ) / 10

/-- `sum(1 for v in l if p v)`: the count of elements satisfying `p`. -/
def countIf (p : ℚ → Prop) [DecidablePred p] (l : List ℚ) : ℕ :=
  (l.map (fun v => if p v then 1 else 0)).sum

/-- Python `min` over a nonempty list of numbers (the `[]` case is never
reached by `calculate_stats`). -/
def minQ : List ℚ → ℚ
  | [] => 0
  | x :: xs => xs.foldl min x

/-- Python `max` over a nonempty list of numbers. -/
def maxQ : List ℚ → ℚ
  | [] => 0
  | x :: xs => xs.foldl max x

/-- The dictionary returned by `calculate_stats` (numeric fields only; the
`*_formatted` display strings are presentation wrappers and omitted). -/
structure Stats where
  count : ℕ
  avg : ℚ
  std_dev : ℝ
  cv : ℝ
  min : ℚ
  max : ℚ
  tir : ℚ
  very_low_pct : ℚ
  low_pct : ℚ
  above_target_pct : ℚ
  high_pct : ℚ
  very_high_pct : ℚ
  a1c : ℚ

/-- `calculate_stats`: glucose statistics over a list of SGV values, `none`
when the list is empty.  `glow`/`ghigh` are the `GLUCOSE_LOW`/`GLUCOSE_HIGH`
configuration globals. -/
noncomputable def calculate_stats (glow ghigh : ℚ) (sgv_values : List ℚ) :
    Option Stats :=
  if sgv_values = [] then none
  else
    let n : ℚ := sgv_values.length
    let avg : ℚ := sgv_values.sum / n
    let variance : ℚ := (sgv_values.map (fun v => (v - avg) ^ 2)).sum / n
    let std_dev : ℝ := Real.sqrt (variance : ℝ)
    let cv : ℝ := if 0 < avg then std_dev / (avg : ℝ) * 100 else 0
    let very_low : ℕ := countIf (fun v => v < 54) sgv_values
    let low : ℕ := countIf (fun v => 54 ≤ v ∧ v < 70) sgv_values
    let in_range : ℕ := countIf (fun v => glow ≤ v ∧ v ≤ ghigh) sgv_values
    let above_target : ℕ := countIf (fun v => ghigh < v ∧ v ≤ 180) sgv_values
    let high : ℕ := countIf (fun v => 180 < v ∧ v ≤ 250) sgv_values
    let very_high : ℕ := countIf (fun v => 250 < v) sgv_values
    some
      { count := sgv_values.length
        avg := round1 avg
        std_dev := round1R std_dev
        cv := round1R cv
        min := minQ sgv_values
        max := maxQ sgv_values
        tir := round1 ((in_range : ℚ) / n * 100)
        very_low_pct := round1 ((very_low : ℚ) / n * 100)
        low_pct := round1 ((low : ℚ) / n * 100)
        above_target_pct := round1 ((above_target : ℚ) / n * 100)
        high_pct := round1 ((high : ℚ) / n * 100)
        very_high_pct := round1 ((very_high : ℚ) / n * 100)
        a1c := round1 ((avg + 46.7) / 28.7) }

/-- How many of the six clinical bands (with target band `[glow, ghigh]`)
a value falls into. -/
def bandCount (glow ghigh v : ℚ) : ℕ :=
  (if v < 54 then 1 else 0) + (if 54 ≤ v ∧ v < 70 then 1 else 0) +
    (if glow ≤ v ∧ v ≤ ghigh then 1 else 0) + (if ghigh < v ∧ v ≤ 180 then 1 else 0) +
    (if 180 < v ∧ v ≤ 250 then 1 else 0) + (if 250 < v then 1 else 0)

/-- The fixed duration multipliers (in milliseconds) of the relative date
grammar: `{"d": 86400000, "w": 604800000, "m": 2592000000, "y": 31536000000}`.
The function is only applied to the four unit letters. -/
def multipliers : Char → Int
  | 'd' => 86400000
  | 'w' => 604800000
  | 'm' => 2592000000
  | 'y' => 31536000000
  | _ => 0

/-- Case-insensitive match of the `[dwmy]` unit group, returning the
lowercased unit (`match.group(2).lower()`). -/
def unitOf (c : Char) : Option Char :=
  if c = 'd' ∨ c = 'D' then some 'd'
  else if c = 'w' ∨ c = 'W' then some 'w'
  else if c = 'm' ∨ c = 'M' then some 'm'
  else if c = 'y' ∨ c = 'Y' then some 'y'
  else none

/-- `int(...)` on a string of ASCII digits. -/
def digitsVal (ds : List Char) : ℕ :=
  ds.foldl (fun acc c => acc * 10 + (c.toNat - 48)) 0

/-- The regex `^(\d+)([dwmy])$` (with `re.I`): at least one digit followed
by a single unit letter; returns the parsed count and lowercased unit. -/
def matchRel (cs : List Char) : Option (ℕ × Char) :=
  match cs.getLast? with
  | none => none
  | some u =>
    match unitOf u with
    | none => none
    | some lu =>
      if cs.dropLast ≠ [] ∧ cs.dropLast.all Char.isDigit then
        some (digitsVal cs.dropLast, lu)
      else none

/-- The regex `^\d{4}-\d{2}$`: a zero-padded year-month shape, returning
the year and month digits' values. -/
def matchYM (cs : List Char) : Option (ℕ × ℕ) :=
  match cs with
  | [a, b, c, d, dash, e, f] =>
    if dash = '-' ∧ [a, b, c, d, e, f].all Char.isDigit then
      some (digitsVal [a, b, c, d], digitsVal [e, f])
    else none
  | _ => none

/-- The canonical `%Y-%m-%d` shape (zero-padded), returning year, month
and day digit values. -/
def matchYMD (cs : List Char) : Option (ℕ × ℕ × ℕ) :=
  match cs with
  | [a, b, c, d, d1, e, f, d2, g, h] =>
    if d1 = '-' ∧ d2 = '-' ∧ [a, b, c, d, e, f, g, h].all Char.isDigit then
      some (digitsVal [a, b, c, d], digitsVal [e, f], digitsVal [g, h])
    else none
  | _ => none

/-- Gregorian leap-year test. -/
def isLeap (y : ℕ) : Bool :=
  (decide (y % 4 = 0) && decide (y % 100 ≠ 0)) || decide (y % 400 = 0)

/-- Days in a Gregorian month (the validation `strptime` performs). -/
def daysInMonth (y m : ℕ) : ℕ :=
  if m = 2 then (if isLeap y then 29 else 28)
  else if m = 4 ∨ m = 6 ∨ m = 9 ∨ m = 11 then 30
  else 31

/-- Julian day number of a Gregorian date (years ≥ 1). -/
def jdn (y m d : ℕ) : ℕ :=
  let a := (14 - m) / 12
  let y2 := y + 4800 - a
  let m2 := m + 12 * a - 3
  d + (153 * m2 + 2) / 5 + 365 * y2 + y2 / 4 - y2 / 100 + y2 / 400 - 32045

/-- `int(datetime(y, m, d, tzinfo=timezone.utc).timestamp() * 1000)`:
epoch milliseconds of midnight UTC (JDN 2440588 is 1970-01-01). -/
def timestampMs (y m d : ℕ) : Int := ((jdn y m d : Int) - 2440588) * 86400000

/-- `parse_date_to_timestamp`: relative offsets first, then `YYYY-MM`
(parsed via `strptime` with `-01` appended, which validates the month),
then `%Y-%m-%d` (which validates month and day); a `strptime` failure
raises in Python and is `none` here.  The clock read of the relative
branch is the explicit `now` argument (epoch milliseconds). -/
def parse_date_to_timestamp (date_str : String) (now : Int) : Option Int :=
  match matchRel date_str.data with
  | some (n, lu) => some (now - (n : Int) * multipliers lu)
  | none =>
    match matchYM date_str.data with
    | some (y, m) =>
      if 1 ≤ y ∧ 1 ≤ m ∧ m ≤ 12 then some (timestampMs y m 1) else none
    | none =>
      match matchYMD date_str.data with
      | some (y, m, d) =>
        if 1 ≤ y ∧ 1 ≤ m ∧ m ≤ 12 ∧ 1 ≤ d ∧ d ≤ daysInMonth y m then
          some (timestampMs y m d)
        else none
      | none => none

/-- First month of the calendar unit after month `m` of year `y`. -/
def nextMonth (y m : ℕ) : ℕ × ℕ := if m = 12 then (y + 1, 1) else (y, m + 1)

/-- The civil day after `(y, m, d)`. -/
def nextDay (y m d : ℕ) : ℕ × ℕ × ℕ :=
  if d < daysInMonth y m then (y, m, d + 1)
  else if m < 12 then (y, m + 1, 1)
  else (y + 1, 1, 1)

/-- The effective end boundary computed by `analyze` (lines 483-494): the
current time when the `to` argument is absent or empty (Python truthiness);
otherwise the parse of the expression, overridden for a 7-character
`YYYY-MM` to the first instant of the following month
(`datetime(year+1, 1, 1)` raises for year 10000), and advanced by
86,400,000 ms for a 10-character full date. -/
def analyzeEndTs (to_date : Option String) (now : Int) : Option Int :=
  match to_date with
  | none => some now
  | some s =>
    if s.data.isEmpty then some now
    else
    match parse_date_to_timestamp s now with
    | none => none
    | some ts =>
      if s.length = 7 then
        match matchYM s.data with
        | some (y, m) =>
          if m = 12 then
            if y + 1 ≤ 9999 then some (timestampMs (y + 1) 1 1) else none
          else some (timestampMs y (m + 1) 1)
        | none => none
      else if s.length = 10 then some (ts + 86400000)
      else some ts

/-- `min(e["date"] for e in entries)` (the `[]` case is unreachable in the
pagination loop, which checks for an empty page first). -/
def minDate : List Entry → Int
  | [] => 0
  | e :: es => es.foldl (fun m x => min m x.date) e.date

/-- The body of `fetch_entries_in_range`'s `for _ in range(100)` loop.
`src start_ts current_end max_per_request` is one page request
(`find[date][$gte] = start_ts`, `find[date][$lt] = current_end`,
`count = max_per_request`).  Besides the accumulated entries the embedding
returns the number of page requests issued. -/
def fetchLoop (src : Int → Int → ℕ → List Entry) (start_ts : Int) (max_per_request : ℕ) :
    ℕ → Int → List Entry → List Entry × ℕ
  | 0, _, acc => (acc, 0)
  | fuel + 1, current_end, acc =>
    let entries := src start_ts current_end max_per_request
    if entries.isEmpty then (acc, 1)
    else
      let oldest := minDate entries
      if entries.length < max_per_request ∨ oldest ≤ start_ts then (acc ++ entries, 1)
      else
        let rest := fetchLoop src start_ts max_per_request fuel oldest (acc ++ entries)
        (rest.1, rest.2 + 1)

/-- `fetch_entries_in_range`: backward-cursor pagination from `end_ts`
down towards `start_ts`, with the hard 100-iteration ceiling. -/
def fetch_entries_in_range (src : Int → Int → ℕ → List Entry) (start_ts end_ts : Int)
    (max_per_request : ℕ) : List Entry × ℕ :=
  fetchLoop src start_ts max_per_request 100 end_ts []

/-- The canonical entry source over a date-descending dataset `D`: a page
request answers with the newest at most `k` entries whose date satisfies
`lo ≤ date < hi` (the Nightscout query semantics). -/
def canonicalSrc (D : List Entry) : Int → Int → ℕ → List Entry :=
  fun lo hi k => (D.filter (fun e => decide (lo ≤ e.date ∧ e.date < hi))).take k

/-- `N` samples with uniformly spaced distinct timestamps
`start, start + s, …, start + (N-1)·s`, listed newest first. -/
def descRun (start s : Int) : ℕ → List Entry
  | 0 => []
  | r + 1 => ⟨start + (r : Int) * s, none⟩ :: descRun start s r

/-- A source that always answers with one full page (of size 1) strictly
above the lower bound, so that no stop condition ever fires. -/
def srcStuck : Int → Int → ℕ → List Entry :=
  fun lo _ _ => [⟨lo + 1, none⟩]

theorem ratFloor_eq_intFloor (q : ℚ) : q.floor = ⌊q⌋ := by
  rw [Rat.floor_def', Rat.floor_def]

theorem rndHalfEven_eq_down (q : ℚ) (f : ℤ) (h1 : (f : ℚ) ≤ q)
    (h2 : q < (f : ℚ) + 1/2) : rndHalfEven q = f := by
  have hf : ⌊q⌋ = f := Int.floor_eq_iff.mpr ⟨h1, by linarith⟩
  unfold rndHalfEven
  rw [ratFloor_eq_intFloor, hf, if_pos (by linarith)]

theorem rndHalfEven_eq_up (q : ℚ) (f : ℤ) (h1 : (f : ℚ) + 1/2 < q)
    (h2 : q < (f : ℚ) + 1) : rndHalfEven q = f + 1 := by
  have hf : ⌊q⌋ = f := Int.floor_eq_iff.mpr ⟨by linarith, by linarith⟩
  unfold rndHalfEven
  rw [ratFloor_eq_intFloor, hf, if_neg (by linarith), if_pos (by linarith)]

theorem round1_eq_down (q : ℚ) (k : ℤ) (h1 : (k : ℚ) ≤ q * 10)
    (h2 : q * 10 < (k : ℚ) + 1/2) : round1 q = (k : ℚ) / 10 := by
  unfold round1
  rw [rndHalfEven_eq_down (q * 10) k h1 h2]

theorem round1_eq_up (q : ℚ) (k : ℤ) (h1 : (k : ℚ) + 1/2 < q * 10)
    (h2 : q * 10 < (k : ℚ) + 1) : round1 q = ((k : ℚ) + 1) / 10 := by
  unfold round1
  rw [rndHalfEven_eq_up (q * 10) k h1 h2]
  push_cast
  ring

/-- Unfolding equation for `calculate_stats` on a nonempty list. -/
theorem calculate_stats_ne (glow ghigh : ℚ) (l : List ℚ) (h : l ≠ []) :
    calculate_stats glow ghigh l = some
      { count := l.length
        avg := round1 (l.sum / l.length)
        std_dev := round1R (Real.sqrt (((l.map (fun v => (v - l.sum / l.length) ^ 2)).sum / l.length : ℚ) : ℝ))
        cv := round1R (if 0 < l.sum / (l.length : ℚ) then
            Real.sqrt (((l.map (fun v => (v - l.sum / l.length) ^ 2)).sum / l.length : ℚ) : ℝ) /
              ((l.sum / l.length : ℚ) : ℝ) * 100 else 0)
        min := minQ l
        max := maxQ l
        tir := round1 ((countIf (fun v => glow ≤ v ∧ v ≤ ghigh) l : ℚ) / l.length * 100)
        very_low_pct := round1 ((countIf (fun v => v < 54) l : ℚ) / l.length * 100)
        low_pct := round1 ((countIf (fun v => 54 ≤ v ∧ v < 70) l : ℚ) / l.length * 100)
        above_target_pct := round1 ((countIf (fun v => ghigh < v ∧ v ≤ 180) l : ℚ) / l.length * 100)
        high_pct := round1 ((countIf (fun v => 180 < v ∧ v ≤ 250) l : ℚ) / l.length * 100)
        very_high_pct := round1 ((countIf (fun v => 250 < v) l : ℚ) / l.length * 100)
        a1c := round1 ((l.sum / l.length + 46.7) / 28.7) } := by
  unfold calculate_stats
  rw [if_neg h]

theorem countIf_cons (p : ℚ → Prop) [DecidablePred p] (v : ℚ) (l : List ℚ) :
    countIf p (v :: l) = (if p v then 1 else 0) + countIf p l := by
  simp [countIf]

theorem filter_valid_sgv_cons (e : Entry) (es : List Entry) :
    filter_valid_sgv (e :: es) =
      if sgvOk e then e.sgv.getD 0 :: filter_valid_sgv es else filter_valid_sgv es := by
  unfold filter_valid_sgv
  rw [List.filter_cons]
  by_cases hok : sgvOk e <;> simp [hok]

theorem filter_valid_sgv_eq_nil (entries : List Entry)
    (h : ∀ e ∈ entries, e.sgv.getD 0 < GLUCOSE_MIN_VALID) :
    filter_valid_sgv entries = [] := by
  induction entries with
  | nil => rfl
  | cons e es ih =>
    have he := h e (by simp)
    have hok : sgvOk e = false := by
      unfold sgvOk
      cases hs : e.sgv with
      | none => rfl
      | some v =>
        rw [hs] at he
        simp only [Option.getD_some] at he
        simp [not_le.mpr he]
    rw [filter_valid_sgv_cons, hok]
    simp only [Bool.false_eq_true, if_false]
    exact ih (fun e' he' => h e' (by simp [he']))

/-- Claim C5: `calculate_stats` returns the `None` sentinel on an empty
sample list, and on the output of `filter_valid_sgv` for any entry list
whose glucose values all lie below the 40 mg/dL floor; being a total
function into `Option Stats` it never raises, and `none` is distinct from
every populated result. -/
theorem C5_no_data_sentinel :
    (∀ glow ghigh : ℚ, calculate_stats glow ghigh [] = none) ∧
    (∀ (glow ghigh : ℚ) (entries : List Entry),
      (∀ e ∈ entries, e.sgv.getD 0 < GLUCOSE_MIN_VALID) →
      calculate_stats glow ghigh (filter_valid_sgv entries) = none) := by
  constructor
  · intro glow ghigh
    simp [calculate_stats]
  · intro glow ghigh entries h
    rw [filter_valid_sgv_eq_nil entries h]
    simp [calculate_stats]

/-- Witness for C5: a concrete entry list (one value below the floor, one
missing `sgv`, one zero `sgv`) on which the filtered statistics are the
`none` sentinel. -/
theorem C5_no_data_sentinel_witness :
    calculate_stats GLUCOSE_LOW GLUCOSE_HIGH
      (filter_valid_sgv [⟨0, some 30⟩, ⟨300000, none⟩, ⟨600000, some 0⟩]) = none :=
  C5_no_data_sentinel.2 GLUCOSE_LOW GLUCOSE_HIGH _
    (by intro e he; fin_cases he <;> norm_num [GLUCOSE_MIN_VALID])

/-- Claim C10: `filter_valid_sgv` drops every entry whose `sgv` is missing,
`None`, or `0`, as well as every value below the 40 mg/dL floor, and
returns exactly the `sgv` values of the remaining entries; it is a total
function, so a record lacking `sgv` never causes a failure. -/
theorem C10_filter_valid_sgv_semantics :
    ∀ entries : List Entry,
      filter_valid_sgv entries =
        (entries.filterMap Entry.sgv).filter (fun v => decide (GLUCOSE_MIN_VALID ≤ v)) := by
  intro entries
  induction entries with
  | nil => rfl
  | cons e es ih =>
    rw [filter_valid_sgv_cons]
    cases hs : e.sgv with
    | none => simp [sgvOk, hs, List.filterMap_cons, ih]
    | some v =>
      by_cases hv : GLUCOSE_MIN_VALID ≤ v
      · have hv0 : v ≠ 0 := by
          intro h0
          rw [h0] at hv
          norm_num [GLUCOSE_MIN_VALID] at hv
        simp [sgvOk, hs, hv, hv0, List.filterMap_cons, List.filter_cons, ih]
      · simp [sgvOk, hs, hv, List.filterMap_cons, List.filter_cons, ih]

/-- Claim C2 (amended): on `[50, 70, 100, 140, 200, 260]` with the default
target range the returned statistics are count 6, mean 136.7 (the 1-decimal
rounding of 820/6), time-in-range 50.0 (3 of 6: both target bounds are
inclusive, so 70, 100 and 140 are in range), severe-low 16.7, very-high
16.7, and estimated A1c 6.4. -/
theorem C2_scenario_stats :
    (calculate_stats GLUCOSE_LOW GLUCOSE_HIGH [50, 70, 100, 140, 200, 260]).map Stats.count
        = some 6 ∧
    (calculate_stats GLUCOSE_LOW GLUCOSE_HIGH [50, 70, 100, 140, 200, 260]).map Stats.avg
        = some (1367/10) ∧
    (calculate_stats GLUCOSE_LOW GLUCOSE_HIGH [50, 70, 100, 140, 200, 260]).map Stats.tir
        = some 50 ∧
    (calculate_stats GLUCOSE_LOW GLUCOSE_HIGH [50, 70, 100, 140, 200, 260]).map Stats.very_low_pct
        = some (167/10) ∧
    (calculate_stats GLUCOSE_LOW GLUCOSE_HIGH [50, 70, 100, 140, 200, 260]).map Stats.very_high_pct
        = some (167/10) ∧
    (calculate_stats GLUCOSE_LOW GLUCOSE_HIGH [50, 70, 100, 140, 200, 260]).map Stats.a1c
        = some (32/5) := by
  rw [calculate_stats_ne _ _ _ (by simp)]
  simp only [Option.map_some', GLUCOSE_LOW, GLUCOSE_HIGH, countIf]
  norm_num
  refine ⟨?_, ?_, ?_, ?_⟩
  · rw [round1_eq_up (410/3) 1366 (by norm_num) (by norm_num)]
    norm_num
  · rw [round1_eq_down 50 500 (by norm_num) (by norm_num)]
    norm_num
  · rw [round1_eq_up (50/3) 166 (by norm_num) (by norm_num)]
    norm_num
  · rw [round1_eq_up (5501/861) 63 (by norm_num) (by norm_num)]
    norm_num

theorem mean_pos (l : List ℚ) (h1 : l ≠ []) (h2 : ∀ v ∈ l, GLUCOSE_MIN_VALID ≤ v) :
    0 < l.sum / (l.length : ℚ) := by
  have hlenq : 0 < (l.length : ℚ) := by exact_mod_cast List.length_pos.mpr h1
  have hs : l.length • GLUCOSE_MIN_VALID ≤ l.sum := List.card_nsmul_le_sum l _ h2
  rw [nsmul_eq_mul] at hs
  have h40 : (0 : ℚ) < GLUCOSE_MIN_VALID := by norm_num [GLUCOSE_MIN_VALID]
  exact div_pos (lt_of_lt_of_le (mul_pos hlenq h40) hs) hlenq

/-- Claim C6: for a nonempty filtered sample list the returned fields are
the one-decimal roundings of the spec formulas: mean `Σv / n`, population
standard deviation `sqrt(Σ(v - μ)² / n)` (divisor `n`, not `n - 1`),
coefficient of variation `σ/μ·100` with `0` substituted when `μ = 0`, and
A1c `(μ + 46.7)/28.7`, with exactly those constants. -/
theorem C6_reduction_formulas (glow ghigh : ℚ) (l : List ℚ) (h1 : l ≠ [])
    (h2 : ∀ v ∈ l, GLUCOSE_MIN_VALID ≤ v) :
    (calculate_stats glow ghigh l).map Stats.avg = some (round1 (l.sum / l.length)) ∧
    (calculate_stats glow ghigh l).map Stats.std_dev =
      some (round1R (Real.sqrt
        (((l.map (fun v => (v - l.sum / l.length) ^ 2)).sum / l.length : ℚ) : ℝ))) ∧
    (calculate_stats glow ghigh l).map Stats.cv =
      some (round1R (if (l.sum / (l.length : ℚ)) = 0 then 0 else
        Real.sqrt (((l.map (fun v => (v - l.sum / l.length) ^ 2)).sum / l.length : ℚ) : ℝ) /
          ((l.sum / l.length : ℚ) : ℝ) * 100)) ∧
    (calculate_stats glow ghigh l).map Stats.a1c =
      some (round1 ((l.sum / l.length + 467/10) / (287/10))) := by
  have hmu : 0 < l.sum / (l.length : ℚ) := mean_pos l h1 h2
  rw [calculate_stats_ne _ _ _ h1]
  simp only [Option.map_some']
  refine ⟨trivial, trivial, ?_, ?_⟩
  · rw [if_pos hmu, if_neg (ne_of_gt hmu)]
  · norm_num

/-- Witness for C6 at the concrete one-element list `[40]`. -/
theorem C6_reduction_formulas_witness :
    (calculate_stats GLUCOSE_LOW GLUCOSE_HIGH [40]).map Stats.avg
        = some (round1 (([(40 : ℚ)].sum) / ([(40 : ℚ)].length))) ∧
    (calculate_stats GLUCOSE_LOW GLUCOSE_HIGH [40]).map Stats.std_dev =
      some (round1R (Real.sqrt
        ((([(40 : ℚ)].map (fun v => (v - [(40 : ℚ)].sum / [(40 : ℚ)].length) ^ 2)).sum
          / [(40 : ℚ)].length : ℚ) : ℝ))) ∧
    (calculate_stats GLUCOSE_LOW GLUCOSE_HIGH [40]).map Stats.cv =
      some (round1R (if ([(40 : ℚ)].sum / ([(40 : ℚ)].length : ℚ)) = 0 then 0 else
        Real.sqrt ((([(40 : ℚ)].map
            (fun v => (v - [(40 : ℚ)].sum / [(40 : ℚ)].length) ^ 2)).sum
          / [(40 : ℚ)].length : ℚ) : ℝ) /
          (([(40 : ℚ)].sum / [(40 : ℚ)].length : ℚ) : ℝ) * 100)) ∧
    (calculate_stats GLUCOSE_LOW GLUCOSE_HIGH [40]).map Stats.a1c =
      some (round1 (([(40 : ℚ)].sum / [(40 : ℚ)].length + 467/10) / (287/10))) :=
  C6_reduction_formulas GLUCOSE_LOW GLUCOSE_HIGH [40] (by simp)
    (by intro v hv; fin_cases hv; norm_num [GLUCOSE_MIN_VALID])

theorem bandCount_default (v : ℚ) : bandCount GLUCOSE_LOW GLUCOSE_HIGH v = 1 := by
  unfold bandCount GLUCOSE_LOW GLUCOSE_HIGH
  rcases lt_or_le v 54 with h54 | h54
  · rw [if_pos h54, if_neg (by rintro ⟨h, -⟩; linarith), if_neg (by rintro ⟨h, -⟩; linarith),
      if_neg (by rintro ⟨h, -⟩; linarith), if_neg (by rintro ⟨h, -⟩; linarith),
      if_neg (by intro h; linarith)]
  · rcases lt_or_le v 70 with h70 | h70
    · rw [if_neg (by intro h; linarith), if_pos ⟨h54, h70⟩,
        if_neg (by rintro ⟨h, -⟩; linarith), if_neg (by rintro ⟨h, -⟩; linarith),
        if_neg (by rintro ⟨h, -⟩; linarith), if_neg (by intro h; linarith)]
    · rcases le_or_lt v 140 with h140 | h140
      · rw [if_neg (by intro h; linarith), if_neg (by rintro ⟨-, h⟩; linarith),
          if_pos ⟨h70, h140⟩, if_neg (by rintro ⟨h, -⟩; linarith),
          if_neg (by rintro ⟨h, -⟩; linarith), if_neg (by intro h; linarith)]
      · rcases le_or_lt v 180 with h180 | h180
        · rw [if_neg (by intro h; linarith), if_neg (by rintro ⟨-, h⟩; linarith),
            if_neg (by rintro ⟨-, h⟩; linarith), if_pos ⟨h140, h180⟩,
            if_neg (by rintro ⟨h, -⟩; linarith), if_neg (by intro h; linarith)]
        · rcases le_or_lt v 250 with h250 | h250
          · rw [if_neg (by intro h; linarith), if_neg (by rintro ⟨-, h⟩; linarith),
              if_neg (by rintro ⟨-, h⟩; linarith), if_neg (by rintro ⟨-, h⟩; linarith),
              if_pos ⟨h180, h250⟩, if_neg (by intro h; linarith)]
          · rw [if_neg (by intro h; linarith), if_neg (by rintro ⟨-, h⟩; linarith),
              if_neg (by rintro ⟨-, h⟩; linarith), if_neg (by rintro ⟨-, h⟩; linarith),
              if_neg (by rintro ⟨-, h⟩; linarith), if_pos h250]

theorem countIf_bands (l : List ℚ) :
    countIf (fun v => v < 54) l + countIf (fun v => 54 ≤ v ∧ v < 70) l +
      countIf (fun v => GLUCOSE_LOW ≤ v ∧ v ≤ GLUCOSE_HIGH) l +
      countIf (fun v => GLUCOSE_HIGH < v ∧ v ≤ 180) l +
      countIf (fun v => 180 < v ∧ v ≤ 250) l + countIf (fun v => 250 < v) l = l.length := by
  induction l with
  | nil => rfl
  | cons v vs ih =>
    have hb := bandCount_default v
    unfold bandCount at hb
    simp only [countIf_cons, List.length_cons]
    set a1 := (if v < 54 then (1 : ℕ) else 0) with ha1
    set a2 := (if 54 ≤ v ∧ v < 70 then (1 : ℕ) else 0) with ha2
    set a3 := (if GLUCOSE_LOW ≤ v ∧ v ≤ GLUCOSE_HIGH then (1 : ℕ) else 0) with ha3
    set a4 := (if GLUCOSE_HIGH < v ∧ v ≤ 180 then (1 : ℕ) else 0) with ha4
    set a5 := (if 180 < v ∧ v ≤ 250 then (1 : ℕ) else 0) with ha5
    set a6 := (if 250 < v then (1 : ℕ) else 0) with ha6
    omega

theorem rndHalfEven_err (p : ℚ) : |(rndHalfEven p : ℚ) - p| ≤ 1/2 := by
  have hfl : ((p.floor : ℤ) : ℚ) ≤ p := by
    rw [ratFloor_eq_intFloor]
    exact Int.floor_le p
  have hfu : p < (p.floor : ℚ) + 1 := by
    rw [ratFloor_eq_intFloor]
    exact_mod_cast Int.lt_floor_add_one p
  simp only [rndHalfEven]
  split_ifs with hA hB hC
  · rw [abs_sub_le_iff]
    constructor <;> linarith
  · push_cast
    rw [abs_sub_le_iff]
    constructor <;> linarith
  · rw [abs_sub_le_iff]
    constructor <;> linarith
  · push_cast
    rw [abs_sub_le_iff]
    constructor <;> linarith

theorem round1_err (q : ℚ) : |round1 q - q| ≤ 1/20 := by
  have h := rndHalfEven_err (q * 10)
  unfold round1
  have heq : (rndHalfEven (q * 10) : ℚ)/10 - q = ((rndHalfEven (q * 10) : ℚ) - q * 10)/10 := by
    ring
  rw [heq, abs_div, abs_of_pos (by norm_num : (0:ℚ) < 10)]
  linarith

/-- Claim C7 (amended): with the default target range the six clinical
bands partition the value space (every sample falls in exactly one band),
and the six reported band percentages sum to 100 within ±0.3 — six bands,
each rounded to one decimal with error at most 0.05; the ±0.1 tolerance of
the claim as stated is too tight. -/
theorem C7_band_partition (l : List ℚ) (h1 : l ≠ [])
    (_h2 : ∀ v ∈ l, GLUCOSE_MIN_VALID ≤ v) :
    (∀ v : ℚ, bandCount GLUCOSE_LOW GLUCOSE_HIGH v = 1) ∧
    ∀ s : Stats, calculate_stats GLUCOSE_LOW GLUCOSE_HIGH l = some s →
      |s.very_low_pct + s.low_pct + s.tir + s.above_target_pct + s.high_pct + s.very_high_pct
        - 100| ≤ 3/10 := by
  refine ⟨bandCount_default, ?_⟩
  intro s hs
  rw [calculate_stats_ne _ _ _ h1] at hs
  injection hs with hs
  subst hs
  dsimp only
  have hn0 : ((l.length : ℚ)) ≠ 0 := by
    have : 0 < (l.length : ℚ) := by exact_mod_cast List.length_pos.mpr h1
    exact ne_of_gt this
  set x1 := ((countIf (fun v => v < 54) l : ℚ)) / l.length * 100 with hx1
  set x2 := ((countIf (fun v => 54 ≤ v ∧ v < 70) l : ℚ)) / l.length * 100 with hx2
  set x3 := ((countIf (fun v => GLUCOSE_LOW ≤ v ∧ v ≤ GLUCOSE_HIGH) l : ℚ)) / l.length * 100
    with hx3
  set x4 := ((countIf (fun v => GLUCOSE_HIGH < v ∧ v ≤ 180) l : ℚ)) / l.length * 100 with hx4
  set x5 := ((countIf (fun v => 180 < v ∧ v ≤ 250) l : ℚ)) / l.length * 100 with hx5
  set x6 := ((countIf (fun v => 250 < v) l : ℚ)) / l.length * 100 with hx6
  have hcq : ((countIf (fun v => v < 54) l : ℚ)) + (countIf (fun v => 54 ≤ v ∧ v < 70) l : ℚ) +
      (countIf (fun v => GLUCOSE_LOW ≤ v ∧ v ≤ GLUCOSE_HIGH) l : ℚ) +
      (countIf (fun v => GLUCOSE_HIGH < v ∧ v ≤ 180) l : ℚ) +
      (countIf (fun v => 180 < v ∧ v ≤ 250) l : ℚ) + (countIf (fun v => 250 < v) l : ℚ)
      = (l.length : ℚ) := by
    exact_mod_cast countIf_bands l
  have hsum : x1 + x2 + x3 + x4 + x5 + x6 = 100 := by
    rw [hx1, hx2, hx3, hx4, hx5, hx6]
    field_simp
    linear_combination 100 * hcq
  have e1 := round1_err x1
  have e2 := round1_err x2
  have e3 := round1_err x3
  have e4 := round1_err x4
  have e5 := round1_err x5
  have e6 := round1_err x6
  rw [abs_sub_le_iff] at e1 e2 e3 e4 e5 e6 ⊢
  constructor <;>
    linarith [e1.1, e1.2, e2.1, e2.2, e3.1, e3.2, e4.1, e4.2, e5.1, e5.2, e6.1, e6.2]

/-- Witness for C7 at the concrete one-element list `[40]`. -/
theorem C7_band_partition_witness :
    (∀ v : ℚ, bandCount GLUCOSE_LOW GLUCOSE_HIGH v = 1) ∧
    ∀ s : Stats, calculate_stats GLUCOSE_LOW GLUCOSE_HIGH [40] = some s →
      |s.very_low_pct + s.low_pct + s.tir + s.above_target_pct + s.high_pct + s.very_high_pct
        - 100| ≤ 3/10 :=
  C7_band_partition [40] (by simp)
    (by intro v hv; fin_cases hv; norm_num [GLUCOSE_MIN_VALID])

/-- Counterexample to C7 as stated: with one sample in each band
(`[50, 60, 100, 150, 200, 260]`, n = 6) every band percentage rounds
16.666… up to 16.7, so the six percentages sum to 100.2, which misses 100
by 0.2 — outside the claimed ±0.1 tolerance. -/
theorem C7_counterexample :
    (calculate_stats GLUCOSE_LOW GLUCOSE_HIGH [50, 60, 100, 150, 200, 260]).map
        (fun s => s.very_low_pct + s.low_pct + s.tir + s.above_target_pct + s.high_pct +
          s.very_high_pct)
      = some (501/5) ∧ ¬ (|(501/5 : ℚ) - 100| ≤ 1/10) := by
  constructor
  · rw [calculate_stats_ne _ _ _ (by simp)]
    simp only [Option.map_some', GLUCOSE_LOW, GLUCOSE_HIGH, countIf]
    norm_num
    rw [round1_eq_up (50/3) 166 (by norm_num) (by norm_num)]
    norm_num
  · have h5 : (501/5 : ℚ) - 100 = 1/5 := by norm_num
    rw [h5, abs_of_pos (by norm_num : (0:ℚ) < 1/5)]
    norm_num

/-- Counterexample to C2 as stated: the in-target percentage on the
scenario input is 50.0 (3 of 6, both target bounds inclusive), not 33.3. -/
theorem C2_counterexample :
    (calculate_stats GLUCOSE_LOW GLUCOSE_HIGH [50, 70, 100, 140, 200, 260]).map Stats.tir
      ≠ some (333/10) := by
  rw [calculate_stats_ne _ _ _ (by simp)]
  simp only [Option.map_some', GLUCOSE_LOW, GLUCOSE_HIGH, countIf]
  norm_num
  rw [round1_eq_down 50 500 (by norm_num) (by norm_num)]
  norm_num

/-- Claim C8: every relative-offset expression — ASCII digits followed by
one unit letter among d/w/m/y, case-insensitively — resolves to `now`
minus the parsed count times the fixed multiplier, and the multipliers are
exactly d = 86,400,000 ms, w = 604,800,000 ms, m = 2,592,000,000 ms,
y = 31,536,000,000 ms. -/
theorem C8_relative_offsets :
    (∀ (ds : List Char) (u lu : Char) (now : Int), ds ≠ [] → ds.all Char.isDigit = true →
      unitOf u = some lu →
      parse_date_to_timestamp (String.mk (ds ++ [u])) now
        = some (now - (digitsVal ds : Int) * multipliers lu)) ∧
    multipliers 'd' = 86400000 ∧ multipliers 'w' = 604800000 ∧
    multipliers 'm' = 2592000000 ∧ multipliers 'y' = 31536000000 := by
  refine ⟨?_, rfl, rfl, rfl, rfl⟩
  intro ds u lu now hne hdig hu
  have hm : matchRel (ds ++ [u]) = some (digitsVal ds, lu) := by
    simp only [matchRel, List.getLast?_concat, List.dropLast_concat, hu]
    rw [if_pos ⟨hne, hdig⟩]
  have hdata : (String.mk (ds ++ [u])).data = ds ++ [u] := rfl
  simp only [parse_date_to_timestamp, hdata, hm]

/-- Witness for C8: `"7d"` at `now` = 2024-03-15T00:00:00Z (epoch-ms
1,710,460,800,000) resolves to 2024-03-08T00:00:00Z (1,709,856,000,000). -/
theorem C8_relative_offsets_witness :
    parse_date_to_timestamp "7d" 1710460800000 = some 1709856000000 := by
  have h := C8_relative_offsets.1 ['7'] 'd' 'd' 1710460800000 (by simp) (by decide) (by decide)
  have hs : ("7d" : String) = String.mk (['7'] ++ ['d']) := rfl
  rw [hs, h]
  decide

theorem isLeap_iff (y : ℕ) : isLeap y = true ↔ ((y % 4 = 0 ∧ y % 100 ≠ 0) ∨ y % 400 = 0) := by
  simp [isLeap]

theorem jdn_feb (y : ℕ) (hy : 1 ≤ y) :
    jdn y 3 1 = jdn y 2 (if isLeap y then 29 else 28) + 1 := by
  have hbump4 : y % 4 = 0 → (y + 4800) / 4 = (y + 4799) / 4 + 1 := by omega
  have hsame4 : y % 4 ≠ 0 → (y + 4800) / 4 = (y + 4799) / 4 := by omega
  have hbump100 : y % 100 = 0 → (y + 4800) / 100 = (y + 4799) / 100 + 1 := by omega
  have hsame100 : y % 100 ≠ 0 → (y + 4800) / 100 = (y + 4799) / 100 := by omega
  have hbump400 : y % 400 = 0 → (y + 4800) / 400 = (y + 4799) / 400 + 1 := by omega
  have hsame400 : y % 400 ≠ 0 → (y + 4800) / 400 = (y + 4799) / 400 := by omega
  by_cases h4 : y % 4 = 0
  · by_cases h100 : y % 100 = 0
    · by_cases h400 : y % 400 = 0
      · rw [if_pos ((isLeap_iff y).mpr (Or.inr h400))]
        simp only [jdn]
        norm_num
        rw [hbump4 h4, hbump100 h100, hbump400 h400]
        omega
      · rw [if_neg (fun hL => by rcases (isLeap_iff y).mp hL with ⟨-, hc⟩ | hc <;> omega)]
        simp only [jdn]
        norm_num
        rw [hbump4 h4, hbump100 h100, hsame400 h400]
        omega
    · have h400 : y % 400 ≠ 0 := by omega
      rw [if_pos ((isLeap_iff y).mpr (Or.inl ⟨h4, h100⟩))]
      simp only [jdn]
      norm_num
      rw [hbump4 h4, hsame100 h100, hsame400 h400]
      omega
  · have h100 : y % 100 ≠ 0 := by omega
    have h400 : y % 400 ≠ 0 := by omega
    rw [if_neg (fun hL => by rcases (isLeap_iff y).mp hL with ⟨hc, -⟩ | hc <;> omega)]
    simp only [jdn]
    norm_num
    rw [hsame4 h4, hsame100 h100, hsame400 h400]
    omega

set_option maxRecDepth 4000 in
theorem jdn_next (y m d : ℕ) (hy : 1 ≤ y) (hm1 : 1 ≤ m) (hm2 : m ≤ 12)
    (hd1 : 1 ≤ d) (hd2 : d ≤ daysInMonth y m) :
    jdn (nextDay y m d).1 (nextDay y m d).2.1 (nextDay y m d).2.2 = jdn y m d + 1 := by
  unfold nextDay
  split_ifs with h1 h2
  · simp only [jdn]
    omega
  · have hd : d = daysInMonth y m := le_antisymm hd2 (not_lt.mp h1)
    subst hd
    interval_cases m
    · norm_num [daysInMonth]
      simp only [jdn]
      omega
    · norm_num [daysInMonth]
      exact jdn_feb y hy
    · norm_num [daysInMonth]
      simp only [jdn]
      omega
    · norm_num [daysInMonth]
      simp only [jdn]
      omega
    · norm_num [daysInMonth]
      simp only [jdn]
      omega
    · norm_num [daysInMonth]
      simp only [jdn]
      omega
    · norm_num [daysInMonth]
      simp only [jdn]
      omega
    · norm_num [daysInMonth]
      simp only [jdn]
      omega
    · norm_num [daysInMonth]
      simp only [jdn]
      omega
    · norm_num [daysInMonth]
      simp only [jdn]
      omega
    · norm_num [daysInMonth]
      simp only [jdn]
      omega
  · have hm : m = 12 := le_antisymm hm2 (not_lt.mp h2)
    subst hm
    have hd : d = 31 := by
      have := le_antisymm hd2 (not_lt.mp h1)
      simpa [daysInMonth] using this
    subst hd
    simp only [jdn]
    omega

theorem matchRel_none_of_dash (cs : List Char) (hmem : '-' ∈ cs.dropLast) :
    matchRel cs = none := by
  unfold matchRel
  cases hl : cs.getLast? with
  | none => rfl
  | some u =>
    cases hu : unitOf u with
    | none => simp [hu]
    | some lu =>
      simp only [hu]
      rw [if_neg]
      rintro ⟨-, hall⟩
      exact absurd (List.all_eq_true.mp hall '-' hmem) (by decide)

theorem parse_year_month (a b c d e f : Char) (now : Int)
    (ha : a.isDigit = true) (hb : b.isDigit = true) (hc : c.isDigit = true)
    (hd : d.isDigit = true) (he : e.isDigit = true) (hf : f.isDigit = true)
    (hy : 1 ≤ digitsVal [a, b, c, d])
    (hm1 : 1 ≤ digitsVal [e, f]) (hm2 : digitsVal [e, f] ≤ 12) :
    parse_date_to_timestamp (String.mk [a, b, c, d, '-', e, f]) now
      = some (timestampMs (digitsVal [a, b, c, d]) (digitsVal [e, f]) 1) := by
  have hrel : matchRel [a, b, c, d, '-', e, f] = none :=
    matchRel_none_of_dash _ (by simp)
  have hYM : matchYM [a, b, c, d, '-', e, f]
      = some (digitsVal [a, b, c, d], digitsVal [e, f]) := by
    change (if ('-' : Char) = '-' ∧ [a, b, c, d, e, f].all Char.isDigit = true then
        some (digitsVal [a, b, c, d], digitsVal [e, f]) else none) = _
    rw [if_pos ⟨rfl, by simp [List.all_eq_true, ha, hb, hc, hd, he, hf]⟩]
  have hdata : (String.mk [a, b, c, d, '-', e, f]).data = [a, b, c, d, '-', e, f] := rfl
  simp only [parse_date_to_timestamp, hdata, hrel, hYM]
  rw [if_pos ⟨hy, hm1, hm2⟩]

theorem parse_full_date (a b c d e f g h : Char) (now : Int)
    (ha : a.isDigit = true) (hb : b.isDigit = true) (hc : c.isDigit = true)
    (hd : d.isDigit = true) (he : e.isDigit = true) (hf : f.isDigit = true)
    (hg : g.isDigit = true) (hh : h.isDigit = true)
    (hy : 1 ≤ digitsVal [a, b, c, d])
    (hm1 : 1 ≤ digitsVal [e, f]) (hm2 : digitsVal [e, f] ≤ 12)
    (hd1 : 1 ≤ digitsVal [g, h])
    (hd2 : digitsVal [g, h] ≤ daysInMonth (digitsVal [a, b, c, d]) (digitsVal [e, f])) :
    parse_date_to_timestamp (String.mk [a, b, c, d, '-', e, f, '-', g, h]) now
      = some (timestampMs (digitsVal [a, b, c, d]) (digitsVal [e, f]) (digitsVal [g, h])) := by
  have hrel : matchRel [a, b, c, d, '-', e, f, '-', g, h] = none :=
    matchRel_none_of_dash _ (by simp)
  have hYM : matchYM [a, b, c, d, '-', e, f, '-', g, h] = none := rfl
  have hYMD : matchYMD [a, b, c, d, '-', e, f, '-', g, h]
      = some (digitsVal [a, b, c, d], digitsVal [e, f], digitsVal [g, h]) := by
    change (if ('-' : Char) = '-' ∧ ('-' : Char) = '-' ∧
        [a, b, c, d, e, f, g, h].all Char.isDigit = true then
        some (digitsVal [a, b, c, d], digitsVal [e, f], digitsVal [g, h]) else none) = _
    rw [if_pos ⟨rfl, rfl, by simp [List.all_eq_true, ha, hb, hc, hd, he, hf, hg, hh]⟩]
  have hdata : (String.mk [a, b, c, d, '-', e, f, '-', g, h]).data
      = [a, b, c, d, '-', e, f, '-', g, h] := rfl
  simp only [parse_date_to_timestamp, hdata, hrel, hYM, hYMD]
  rw [if_pos ⟨hy, hm1, hm2, hd1, hd2⟩]

/-- Claim C9 (amended): a range-analysis end expression that is a
(zero-padded) year-month yields the first instant of the following month
as the effective end boundary, and a full date yields midnight UTC of the
following day — except the single expression `9999-12`, for which the
Python code raises (`datetime` cannot represent year 10000) instead of
producing a boundary. -/
theorem C9_end_inclusive_boundary :
    (∀ (a b c d e f : Char) (now : Int),
      a.isDigit = true → b.isDigit = true → c.isDigit = true → d.isDigit = true →
      e.isDigit = true → f.isDigit = true →
      1 ≤ digitsVal [a, b, c, d] → digitsVal [a, b, c, d] ≤ 9999 →
      1 ≤ digitsVal [e, f] → digitsVal [e, f] ≤ 12 →
      ¬ (digitsVal [a, b, c, d] = 9999 ∧ digitsVal [e, f] = 12) →
      analyzeEndTs (some (String.mk [a, b, c, d, '-', e, f])) now
        = some (timestampMs (nextMonth (digitsVal [a, b, c, d]) (digitsVal [e, f])).1
            (nextMonth (digitsVal [a, b, c, d]) (digitsVal [e, f])).2 1)) ∧
    (∀ (a b c d e f g h : Char) (now : Int),
      a.isDigit = true → b.isDigit = true → c.isDigit = true → d.isDigit = true →
      e.isDigit = true → f.isDigit = true → g.isDigit = true → h.isDigit = true →
      1 ≤ digitsVal [a, b, c, d] →
      1 ≤ digitsVal [e, f] → digitsVal [e, f] ≤ 12 →
      1 ≤ digitsVal [g, h] →
      digitsVal [g, h] ≤ daysInMonth (digitsVal [a, b, c, d]) (digitsVal [e, f]) →
      analyzeEndTs (some (String.mk [a, b, c, d, '-', e, f, '-', g, h])) now
        = some (timestampMs
            (nextDay (digitsVal [a, b, c, d]) (digitsVal [e, f]) (digitsVal [g, h])).1
            (nextDay (digitsVal [a, b, c, d]) (digitsVal [e, f]) (digitsVal [g, h])).2.1
            (nextDay (digitsVal [a, b, c, d]) (digitsVal [e, f]) (digitsVal [g, h])).2.2)) := by
  constructor
  · intro a b c d e f now ha hb hc hd he hf hy1 hy2 hm1 hm2 hnot
    have hp := parse_year_month a b c d e f now ha hb hc hd he hf hy1 hm1 hm2
    have hYM : matchYM [a, b, c, d, '-', e, f]
        = some (digitsVal [a, b, c, d], digitsVal [e, f]) := by
      change (if ('-' : Char) = '-' ∧ [a, b, c, d, e, f].all Char.isDigit = true then
          some (digitsVal [a, b, c, d], digitsVal [e, f]) else none) = _
      rw [if_pos ⟨rfl, by simp [List.all_eq_true, ha, hb, hc, hd, he, hf]⟩]
    have hlen : (String.mk [a, b, c, d, '-', e, f]).length = 7 := rfl
    have hdata : (String.mk [a, b, c, d, '-', e, f]).data = [a, b, c, d, '-', e, f] := rfl
    have hemp : (String.mk [a, b, c, d, '-', e, f]).data.isEmpty = false := rfl
    simp only [analyzeEndTs, hemp, Bool.false_eq_true, if_false, hp, hlen, hdata, hYM,
      if_pos rfl]
    by_cases hm12 : digitsVal [e, f] = 12
    · have hylt : digitsVal [a, b, c, d] + 1 ≤ 9999 := by omega
      rw [if_pos hm12, if_pos hylt]
      simp [nextMonth, hm12]
    · rw [if_neg hm12]
      simp [nextMonth, hm12]
  · intro a b c d e f g h now ha hb hc hd he hf hg hh hy1 hm1 hm2 hd1 hd2
    have hp := parse_full_date a b c d e f g h now ha hb hc hd he hf hg hh hy1 hm1 hm2 hd1 hd2
    have hlen : (String.mk [a, b, c, d, '-', e, f, '-', g, h]).length = 10 := rfl
    have hemp : (String.mk [a, b, c, d, '-', e, f, '-', g, h]).data.isEmpty = false := rfl
    simp only [analyzeEndTs, hemp, Bool.false_eq_true, if_false, hp, hlen]
    rw [if_pos trivial]
    have hj := jdn_next (digitsVal [a, b, c, d]) (digitsVal [e, f]) (digitsVal [g, h])
      hy1 hm1 hm2 hd1 hd2
    unfold timestampMs
    rw [hj]
    push_cast
    ring_nf

/-- Witness for C9: an end of `"2024-03"` yields the effective boundary
2024-04-01T00:00:00Z, i.e. epoch-ms 1,711,929,600,000. -/
theorem C9_end_inclusive_boundary_witness :
    analyzeEndTs (some "2024-03") 0 = some 1711929600000 := by
  have h := C9_end_inclusive_boundary.1 '2' '0' '2' '4' '0' '3' 0 (by decide) (by decide)
    (by decide) (by decide) (by decide) (by decide) (by decide) (by decide) (by decide)
    (by decide) (by decide)
  have hs : ("2024-03" : String) = String.mk ['2', '0', '2', '4', '-', '0', '3'] := rfl
  rw [hs, h]
  decide

/-- Counterexample to C9 as stated: for the valid year-month end
expression `"9999-12"` the code raises (year 10000 is out of range for
`datetime`) instead of advancing the boundary to the next month. -/
theorem C9_counterexample : analyzeEndTs (some "9999-12") 0 = none := by decide

theorem fetchLoop_full (src : Int → Int → ℕ → List Entry) (start_ts : Int) (k : ℕ)
    (hk : 1 ≤ k)
    (hfull : ∀ c, (src start_ts c k).length = k)
    (hmin : ∀ c, start_ts < minDate (src start_ts c k)) :
    ∀ (fuel : ℕ) (c : Int) (acc : List Entry),
      (fetchLoop src start_ts k fuel c acc).2 = fuel ∧
      (fetchLoop src start_ts k fuel c acc).1.length = acc.length + fuel * k := by
  intro fuel
  induction fuel with
  | zero => intro c acc; exact ⟨rfl, by simp [fetchLoop]⟩
  | succ f ih =>
    intro c acc
    have hne : (src start_ts c k).isEmpty = false := by
      cases hsrc : src start_ts c k with
      | nil =>
        have := hfull c
        rw [hsrc] at this
        simp at this
        omega
      | cons x xs => rfl
    simp only [fetchLoop]
    rw [if_neg (by rw [hne]; exact Bool.false_ne_true)]
    rw [if_neg (by
      rintro (hlt | hle)
      · rw [hfull c] at hlt
        omega
      · exact absurd hle (not_le.mpr (hmin c)))]
    obtain ⟨ih1, ih2⟩ := ih (minDate (src start_ts c k)) (acc ++ src start_ts c k)
    refine ⟨by simpa using ih1, ?_⟩
    simp only [ih2, List.length_append, hfull c, Nat.succ_mul]
    ring

/-- Claim C1 (amended): when every page request answers with a full page
whose oldest entry lies strictly above the lower bound — so no stop
condition ever fires — the fetch stops after exactly 100 iterations, not
before and not after, and returns the accumulated 100 pages as a normal
result; the code raises no pagination error. -/
theorem C1_iteration_ceiling (src : Int → Int → ℕ → List Entry)
    (start_ts end_ts : Int) (k : ℕ) (hk : 1 ≤ k)
    (hfull : ∀ c, (src start_ts c k).length = k)
    (hmin : ∀ c, start_ts < minDate (src start_ts c k)) :
    (fetch_entries_in_range src start_ts end_ts k).2 = 100 ∧
    (fetch_entries_in_range src start_ts end_ts k).1.length = 100 * k := by
  obtain ⟨h1, h2⟩ := fetchLoop_full src start_ts k hk hfull hmin 100 end_ts []
  exact ⟨h1, by simpa using h2⟩

/-- Witness for C1 (amended) at the concrete source `srcStuck`. -/
theorem C1_iteration_ceiling_witness :
    (fetch_entries_in_range srcStuck 5 2000 1).2 = 100 ∧
    (fetch_entries_in_range srcStuck 5 2000 1).1.length = 100 * 1 :=
  C1_iteration_ceiling srcStuck 5 2000 1 (by norm_num) (fun c => rfl)
    (fun c => by norm_num [srcStuck, minDate])

set_option maxRecDepth 100000 in
/-- Counterexample to C1 as stated: on a source that always returns a full
page above the lower bound the fetch returns a normal result — a list of
100 pages after exactly 100 requests — rather than failing with any
pagination-overrun error (no such error exists in the code). -/
theorem C1_counterexample :
    (fetch_entries_in_range srcStuck 0 1000 1).1.length = 100 ∧
    (fetch_entries_in_range srcStuck 0 1000 1).2 = 100 := by
  constructor
  · decide
  · decide

theorem descRun_length (start s : Int) : ∀ r, (descRun start s r).length = r := by
  intro r
  induction r with
  | zero => rfl
  | succ r ih => simp [descRun, ih]

theorem descRun_drop (start s : Int) : ∀ (k r : ℕ),
    (descRun start s r).drop k = descRun start s (r - k) := by
  intro k
  induction k with
  | zero => intro r; simp
  | succ k ih =>
    intro r
    cases r with
    | zero => simp [descRun]
    | succ r =>
      simp only [descRun, List.drop_succ_cons, ih, Nat.succ_sub_succ]

theorem foldl_min_hoist : ∀ (xs : List Entry) (a b : Int),
    xs.foldl (fun m x => min m x.date) (min a b)
      = min a (xs.foldl (fun m x => min m x.date) b) := by
  intro xs
  induction xs with
  | nil => intro a b; rfl
  | cons x xs ih =>
    intro a b
    simp only [List.foldl_cons]
    rw [min_assoc, ih]

theorem minDate_cons_of_ne (e : Entry) (l : List Entry) (h : l ≠ []) :
    minDate (e :: l) = min e.date (minDate l) := by
  cases l with
  | nil => exact absurd rfl h
  | cons x xs =>
    show (x :: xs).foldl (fun m y => min m y.date) e.date
      = min e.date (xs.foldl (fun m y => min m y.date) x.date)
    simp only [List.foldl_cons]
    exact foldl_min_hoist xs e.date x.date

theorem foldl_min_le_init : ∀ (xs : List Entry) (a : Int),
    xs.foldl (fun m x => min m x.date) a ≤ a := by
  intro xs
  induction xs with
  | nil => intro a; exact le_refl a
  | cons x xs ih =>
    intro a
    simp only [List.foldl_cons]
    exact le_trans (ih (min a x.date)) (min_le_left a x.date)

theorem minDate_lt_of (l : List Entry) (hl : l ≠ []) (c : Int)
    (h : ∀ e ∈ l, e.date < c) : minDate l < c := by
  cases l with
  | nil => exact absurd rfl hl
  | cons e es =>
    have h1 : minDate (e :: es) ≤ e.date := foldl_min_le_init es e.date
    exact lt_of_le_of_lt h1 (h e (by simp))

theorem minDate_descRun_take (start s : Int) (hs : 1 ≤ s) :
    ∀ (k r : ℕ), 1 ≤ k → k ≤ r →
      minDate ((descRun start s r).take k) = start + ((r : Int) - k) * s := by
  intro k
  induction k with
  | zero => intro r hk; exact absurd hk (by norm_num)
  | succ k ih =>
    intro r hk1 hkr
    obtain ⟨r', rfl⟩ : ∃ r', r = r' + 1 := ⟨r - 1, by omega⟩
    rcases Nat.eq_zero_or_pos k with h0 | hkpos
    · subst h0
      show minDate [⟨start + (r' : Int) * s, none⟩] = _
      show start + (r' : Int) * s = _
      push_cast
      ring
    · simp only [descRun, List.take_succ_cons]
      have hlen : ((descRun start s r').take k).length = k := by
        rw [List.length_take, descRun_length]
        omega
      have hne : (descRun start s r').take k ≠ [] := by
        intro hnil
        rw [hnil] at hlen
        simp at hlen
        omega
      rw [minDate_cons_of_ne _ _ hne, ih r' hkpos (by omega)]
      have hmul : start + ((r' : Int) - k) * s ≤ start + (r' : Int) * s := by
        have h1 : ((r' : Int) - k) ≤ (r' : Int) := by
          have : (0 : Int) ≤ (k : Int) := Int.natCast_nonneg k
          linarith
        have := mul_le_mul_of_nonneg_right h1 (by linarith : (0 : Int) ≤ s)
        linarith
      rw [min_eq_right hmul]
      push_cast
      ring

theorem descRun_date_mem (start s : Int) : ∀ (r : ℕ) (e : Entry), e ∈ descRun start s r →
    ∃ i : ℕ, i < r ∧ e.date = start + (i : Int) * s := by
  intro r
  induction r with
  | zero => intro e he; simp [descRun] at he
  | succ r ih =>
    intro e he
    rcases List.mem_cons.mp he with rfl | he
    · exact ⟨r, by omega, rfl⟩
    · obtain ⟨i, hi, hd⟩ := ih e he
      exact ⟨i, by omega, hd⟩

theorem mem_descRun_zero (start s : Int) : ∀ r, 1 ≤ r →
    (⟨start, none⟩ : Entry) ∈ descRun start s r := by
  intro r
  induction r with
  | zero => intro h; exact absurd h (by norm_num)
  | succ r ih =>
    intro h
    rcases Nat.eq_zero_or_pos r with h0 | hr
    · subst h0
      have : (⟨start + (0 : Int) * s, none⟩ : Entry) = ⟨start, none⟩ := by
        simp
      simp only [descRun]
      rw [show ((0 : ℕ) : Int) = (0 : Int) from rfl, this]
      exact List.mem_singleton.mpr rfl
    · exact List.mem_cons_of_mem _ (ih hr)

theorem descRun_dates_nodup (start s : Int) (hs : 1 ≤ s) (r : ℕ) :
    ((descRun start s r).map Entry.date).Nodup := by
  induction r with
  | zero => simp [descRun]
  | succ r ih =>
    simp only [descRun, List.map_cons, List.nodup_cons]
    refine ⟨?_, ih⟩
    intro hmem
    obtain ⟨e, he, hdate⟩ := List.mem_map.mp hmem
    obtain ⟨i, hi, hd⟩ := descRun_date_mem start s r e he
    rw [hd] at hdate
    have : (i : Int) * s < (r : Int) * s := by
      apply mul_lt_mul_of_pos_right _ (by linarith)
      exact_mod_cast hi
    omega

theorem filter_descRun (start s : Int) (hs : 1 ≤ s) :
    ∀ (N r : ℕ) (c : Int), r ≤ N →
      start + ((r : Int) - 1) * s < c → (c ≤ start + (r : Int) * s ∨ r = N) →
      (descRun start s N).filter (fun e => decide (start ≤ e.date ∧ e.date < c))
        = descRun start s r := by
  intro N
  induction N with
  | zero =>
    intro r c hr _ _
    interval_cases r
    simp [descRun]
  | succ N ih =>
    intro r c h1 h2 h3
    by_cases hrN : r = N + 1
    · subst hrN
      simp only [descRun, List.filter_cons]
      have hNc : start + (N : Int) * s < c := by
        push_cast at h2
        have : start + ((N : Int) + 1 - 1) * s = start + (N : Int) * s := by ring
        linarith [h2]
      have hcond : (decide (start ≤ start + (N : Int) * s ∧ start + (N : Int) * s < c)) = true := by
        apply decide_eq_true
        constructor
        · have h0 : (0 : Int) ≤ (N : Int) * s :=
            mul_nonneg (Int.natCast_nonneg N) (by linarith)
          linarith
        · exact hNc
      rw [hcond]
      simp only [if_true]
      congr 1
      exact ih N c le_rfl (by nlinarith [Int.natCast_nonneg N]) (Or.inr rfl)
    · have hrN' : r ≤ N := by omega
      simp only [descRun, List.filter_cons]
      have hcr : c ≤ start + (r : Int) * s := by
        rcases h3 with h3 | h3
        · exact h3
        · exact absurd h3 hrN
      have hcond : (decide (start ≤ start + (N : Int) * s ∧ start + (N : Int) * s < c)) = false := by
        apply decide_eq_false
        rintro ⟨-, hlt⟩
        have hrs : (r : Int) * s ≤ (N : Int) * s := by
          apply mul_le_mul_of_nonneg_right _ (by linarith : (0 : Int) ≤ s)
          exact_mod_cast hrN'
        linarith
      rw [hcond]
      simp only [Bool.false_eq_true, if_false]
      exact ih r c hrN' h2 (Or.inl hcr)

theorem fetchLoop_canonical (start s : Int) (hs : 1 ≤ s) (N k : ℕ) (hk : 1 ≤ k) :
    ∀ (fuel r : ℕ) (c : Int) (acc : List Entry),
      1 ≤ r → r ≤ N →
      start + ((r : Int) - 1) * s < c → (c ≤ start + (r : Int) * s ∨ r = N) →
      r ≤ fuel * k →
      fetchLoop (canonicalSrc (descRun start s N)) start k fuel c acc
        = (acc ++ descRun start s r, (r + k - 1) / k) := by
  intro fuel
  induction fuel with
  | zero =>
    intro r c acc hr1 _ _ _ hfuel
    simp at hfuel
    omega
  | succ f ih =>
    intro r c acc hr1 hrN h1 h2 hfuel
    have hfil := filter_descRun start s hs N r c hrN h1 h2
    simp only [fetchLoop, canonicalSrc]
    rw [hfil]
    have hlen_take : ((descRun start s r).take k).length = min k r := by
      rw [List.length_take, descRun_length]
    have hne : ((descRun start s r).take k).isEmpty = false := by
      cases hcase : (descRun start s r).take k with
      | nil =>
        rw [hcase] at hlen_take
        simp at hlen_take
        omega
      | cons x xs => rfl
    rw [if_neg (by rw [hne]; exact Bool.false_ne_true)]
    rcases lt_trichotomy r k with hlt | heq | hgt
    · have htake : (descRun start s r).take k = descRun start s r :=
        List.take_of_length_le (by rw [descRun_length]; omega)
      rw [htake]
      rw [if_pos (Or.inl (by rw [descRun_length]; omega))]
      have hdiv : (r + k - 1) / k = 1 :=
        Nat.div_eq_of_lt_le (by simpa using (by omega : k ≤ r + k - 1))
          (by simpa [two_mul] using (by omega : r + k - 1 < 2 * k))
      rw [hdiv]
    · subst heq
      have htake : (descRun start s r).take r = descRun start s r :=
        List.take_of_length_le (by rw [descRun_length])
      rw [htake]
      have hmin : minDate (descRun start s r) = start := by
        have := minDate_descRun_take start s hs r r hr1 le_rfl
        rw [List.take_of_length_le (by rw [descRun_length])] at this
        simpa using this
      rw [if_pos (Or.inr (by rw [hmin]))]
      have hdiv : (r + r - 1) / r = 1 :=
        Nat.div_eq_of_lt_le (by simpa using (by omega : r ≤ r + r - 1))
          (by simpa [two_mul] using (by omega : r + r - 1 < 2 * r))
      rw [hdiv]
    · have hmin : minDate ((descRun start s r).take k) = start + ((r : Int) - k) * s :=
        minDate_descRun_take start s hs k r hk (by omega)
      have hpos : (0 : Int) < ((r : Int) - (k : Int)) * s := by
        apply mul_pos _ (by linarith)
        have : (k : Int) < (r : Int) := by exact_mod_cast hgt
        linarith
      rw [if_neg (by
        rintro (habs | habs)
        · rw [hlen_take] at habs
          omega
        · rw [hmin] at habs
          linarith)]
      rw [hmin]
      have hrec := ih (r - k) (start + ((r : Int) - k) * s)
        (acc ++ (descRun start s r).take k) (by omega) (by omega)
        (by
          have hc : ((r - k : ℕ) : Int) = (r : Int) - k := by
            push_cast [Nat.cast_sub (by omega : k ≤ r)]
            ring
          rw [hc]
          have : ((r : Int) - k - 1) * s < ((r : Int) - k) * s := by
            apply mul_lt_mul_of_pos_right _ (by linarith)
            linarith
          linarith)
        (Or.inl (by
          have hc : ((r - k : ℕ) : Int) = (r : Int) - k := by
            push_cast [Nat.cast_sub (by omega : k ≤ r)]
            ring
          rw [hc]))
        (by
          have hsm : (f + 1) * k = f * k + k := Nat.succ_mul f k
          rw [hsm] at hfuel
          omega)
      rw [hrec]
      have hfst : (acc ++ (descRun start s r).take k) ++ descRun start s (r - k)
          = acc ++ descRun start s r := by
        rw [List.append_assoc]
        congr 1
        rw [← descRun_drop start s k r]
        exact List.take_append_drop k (descRun start s r)
      have hsnd : (r - k + k - 1) / k + 1 = (r + k - 1) / k := by
        have e1 : r - k + k - 1 = r - 1 := by omega
        have e2 : r + k - 1 = (r - 1) + k := by omega
        rw [e1, e2, Nat.add_div_right _ (by omega)]
      rw [hfst, hsnd]

/-- Claim C3 (amended): for the canonical source over `N` uniformly spaced,
distinct-timestamp samples in `[start, end)` and any page size
`0 < pageSize < N`, provided `⌈N/pageSize⌉` does not exceed the
100-iteration ceiling, the fetch returns exactly the `N` samples — the
dataset itself, hence no duplicates and no gaps — after exactly
`⌈N/pageSize⌉` page requests.  Without the ceiling hypothesis the claim
fails (see the counterexample). -/
theorem C3_pagination_completeness (start s end_ts : Int) (N k : ℕ)
    (hs : 1 ≤ s) (hk : 1 ≤ k) (hkN : k < N)
    (hend : start + ((N : Int) - 1) * s < end_ts)
    (hpages : (N + k - 1) / k ≤ 100) :
    fetch_entries_in_range (canonicalSrc (descRun start s N)) start end_ts k
      = (descRun start s N, (N + k - 1) / k) ∧
    (descRun start s N).length = N ∧
    ((descRun start s N).map Entry.date).Nodup := by
  refine ⟨?_, descRun_length start s N, descRun_dates_nodup start s hs N⟩
  have hfuel : N ≤ 100 * k := by
    have h101 : N + k - 1 < 101 * k := by
      have := (Nat.div_lt_iff_lt_mul (by omega : 0 < k)).mp
        (lt_of_le_of_lt hpages (by norm_num : (100 : ℕ) < 101))
      omega
    omega
  have h := fetchLoop_canonical start s hs N k hk 100 N end_ts []
    (by omega) le_rfl hend (Or.inr rfl) (by omega)
  unfold fetch_entries_in_range
  rw [h]
  simp

/-- Witness for C3 (amended): five samples at timestamps 0..4 in `[0, 5)`
with page size 2 are fetched completely in `⌈5/2⌉ = 3` pages. -/
theorem C3_pagination_completeness_witness :
    fetch_entries_in_range (canonicalSrc (descRun 0 1 5)) 0 5 2
      = (descRun 0 1 5, (5 + 2 - 1) / 2) ∧
    (descRun 0 1 5).length = 5 ∧
    ((descRun 0 1 5).map Entry.date).Nodup :=
  C3_pagination_completeness 0 1 5 5 2 (by norm_num) (by norm_num) (by norm_num)
    (by norm_num) (by norm_num)

set_option maxRecDepth 100000 in
/-- Counterexample to C3 as stated: 101 uniformly spaced samples with page
size 1 need 101 pages; the silent 100-iteration cap truncates the result
to 100 samples, so the fetch does not return all `N` samples. -/
theorem C3_counterexample :
    (fetch_entries_in_range (canonicalSrc (descRun 0 1 101)) 0 101 1).1.length = 100 ∧
    (100 : ℕ) ≠ 101 := by
  constructor
  · decide
  · decide

theorem fetchLoop_in_window (src : Int → Int → ℕ → List Entry)
    (start_ts end_ts : Int) (k : ℕ)
    (hsrc : ∀ lo hi kk, ∀ e ∈ src lo hi kk, lo ≤ e.date ∧ e.date < hi) :
    ∀ (fuel : ℕ) (c : Int) (acc : List Entry), c ≤ end_ts →
      (∀ e ∈ acc, start_ts ≤ e.date ∧ e.date < end_ts) →
      ∀ e ∈ (fetchLoop src start_ts k fuel c acc).1,
        start_ts ≤ e.date ∧ e.date < end_ts := by
  intro fuel
  induction fuel with
  | zero => intro c acc _ hacc; exact hacc
  | succ f ih =>
    intro c acc hc hacc
    simp only [fetchLoop]
    have hentries : ∀ e ∈ src start_ts c k, start_ts ≤ e.date ∧ e.date < end_ts := by
      intro e he
      obtain ⟨hge, hlt⟩ := hsrc start_ts c k e he
      exact ⟨hge, lt_of_lt_of_le hlt hc⟩
    have hacc' : ∀ e ∈ acc ++ src start_ts c k, start_ts ≤ e.date ∧ e.date < end_ts := by
      intro e he
      rcases List.mem_append.mp he with he | he
      · exact hacc e he
      · exact hentries e he
    by_cases hemp : (src start_ts c k).isEmpty = true
    · rw [if_pos hemp]
      exact hacc
    · rw [if_neg hemp]
      by_cases hstop : (src start_ts c k).length < k ∨ minDate (src start_ts c k) ≤ start_ts
      · rw [if_pos hstop]
        exact hacc'
      · rw [if_neg hstop]
        have hnil : src start_ts c k ≠ [] := by
          intro hn
          rw [hn] at hemp
          exact hemp rfl
        have hcm : minDate (src start_ts c k) < c :=
          minDate_lt_of _ hnil c (fun e he => (hsrc start_ts c k e he).2)
        exact ih (minDate (src start_ts c k)) (acc ++ src start_ts c k)
          (le_of_lt (lt_of_lt_of_le hcm hc)) hacc'

/-- Claim C4 (amended): half-open boundary semantics.  (1) For every source
respecting the `date ≥ start AND date < cursor` filter, every fetched entry
satisfies `start ≤ date < end`; in particular a sample with timestamp
exactly `end` is never included.  (2) For the canonical source over a
uniformly spaced dataset whose oldest sample sits exactly at `start`, that
sample is always included provided the dataset fits in the 100-page
ceiling (`⌈N/pageSize⌉ ≤ 100`); beyond the ceiling it is silently dropped
(see the counterexample). -/
theorem C4_half_open_boundaries :
    (∀ (src : Int → Int → ℕ → List Entry) (start_ts end_ts : Int) (k : ℕ),
      (∀ lo hi kk, ∀ e ∈ src lo hi kk, lo ≤ e.date ∧ e.date < hi) →
      ∀ e ∈ (fetch_entries_in_range src start_ts end_ts k).1,
        start_ts ≤ e.date ∧ e.date < end_ts) ∧
    (∀ (start s end_ts : Int) (N k : ℕ), 1 ≤ s → 1 ≤ k → 1 ≤ N →
      start + ((N : Int) - 1) * s < end_ts → (N + k - 1) / k ≤ 100 →
      (⟨start, none⟩ : Entry) ∈
        (fetch_entries_in_range (canonicalSrc (descRun start s N)) start end_ts k).1) := by
  constructor
  · intro src start_ts end_ts k hsrc
    exact fetchLoop_in_window src start_ts end_ts k hsrc 100 end_ts [] le_rfl (by simp)
  · intro start s end_ts N k hs hk hN hend hpages
    have hfuel : N ≤ 100 * k := by
      have h101 : N + k - 1 < 101 * k := by
        have := (Nat.div_lt_iff_lt_mul (by omega : 0 < k)).mp
          (lt_of_le_of_lt hpages (by norm_num : (100 : ℕ) < 101))
        omega
      omega
    have h := fetchLoop_canonical start s hs N k hk 100 N end_ts []
      (by omega) le_rfl hend (Or.inr rfl) (by omega)
    unfold fetch_entries_in_range
    rw [h]
    simpa using mem_descRun_zero start s N hN

/-- Witness for C4 (amended): the sample at exactly `start = 0` is fetched
for the five-sample window `[0, 5)` with page size 2. -/
theorem C4_half_open_boundaries_witness :
    (⟨0, none⟩ : Entry) ∈
      (fetch_entries_in_range (canonicalSrc (descRun 0 1 5)) 0 5 2).1 :=
  C4_half_open_boundaries.2 0 1 5 5 2 (by norm_num) (by norm_num) (by norm_num)
    (by norm_num) (by norm_num)

set_option maxRecDepth 100000 in
/-- Counterexample to C4 as stated: with 101 one-per-page samples the
sample at exactly `start` is NOT included — the 100-page cap truncates the
walk before it reaches the lower boundary. -/
theorem C4_counterexample :
    (⟨0, none⟩ : Entry) ∉
      (fetch_entries_in_range (canonicalSrc (descRun 0 1 101)) 0 101 1).1 := by
  decide
